import Mathlib

/-!
# Verification of the iris-rs lighting-cue engine specification

The repository ships the engine as a compiled WebAssembly module consumed by
the TypeScript host in `iris-hub/www`; the engine's own source (the Rust
`iris-lib`) is not among the inspected files.  Following the architecture
specification, the engine is modelled here from the spec's words: Color model,
Cue variants, Cue Registry, Playback State Machine, Evaluator and Codec.  The
host-side call surface (`update_display` in the TypeScript sources) is
embedded directly from the source.
-/

namespace Iris

/-- Modelled from the spec: a Color is three 8-bit channels; the engine's
Color model is not present in the inspected files.  Components are naturals,
with validity meaning each fits in 8 bits. -/
structure Color where
  r : Nat
  g : Nat
  b : Nat
deriving DecidableEq, Repr

/-- Modelled from the spec: a Color is valid when every channel fits 8 bits. -/
def Color.valid (c : Color) : Prop :=
  c.r < 256 ∧ c.g < 256 ∧ c.b < 256

instance (c : Color) : Decidable c.valid := by
  unfold Color.valid; infer_instance

/-- Modelled from the spec: the off/black Color, the Idle default. -/
def Color.black : Color := ⟨0, 0, 0⟩

/-- Modelled from the spec: one component of the linear interpolation,
fixed-point with fraction `num / den`, rounding half up (deterministic across
hosts). -/
def lerpComp (x y num den : Nat) : Nat :=
  (x * (den - num) + y * num + den / 2) / den

/-- Modelled from the spec: component-wise linear interpolation between two
Colors, parameterised by the fraction `num / den`. -/
def Color.lerp (a b : Color) (num den : Nat) : Color :=
  ⟨lerpComp a.r b.r num den, lerpComp a.g b.g num den, lerpComp a.b b.b num den⟩

/-- Modelled from the spec: the closed set of Cue effect variants (solid,
pulse, chase/rotate, strobe), each owning only the parameters it needs.  The
engine source is not among the inspected files. -/
inductive Cue where
  | solid (c : Color)
  | pulse (a b : Color) (period : Nat)
  | chase (palette : List Color) (period : Nat)
  | strobe (c : Color) (period : Nat) (onDuration : Nat)
deriving DecidableEq, Repr

/-- Modelled from the spec: validity of a Cue's parameters — colors fit 8
bits, periods are nonzero 32-bit values, a chase palette is nonempty and fits
one count byte, a strobe on-duration fits 32 bits. -/
def CueValid : Cue → Prop
  | .solid c => c.valid
  | .pulse a b period =>
      a.valid ∧ b.valid ∧ 0 < period ∧ period < 4294967296
  | .chase palette period =>
      palette ≠ [] ∧ palette.length < 256 ∧ (∀ c ∈ palette, c.valid) ∧
      0 < period ∧ period < 4294967296
  | .strobe c period onDuration =>
      c.valid ∧ 0 < period ∧ period < 4294967296 ∧ onDuration < 4294967296

instance (cue : Cue) : Decidable (CueValid cue) := by
  cases cue <;> (unfold CueValid; infer_instance)

/-- Modelled from the spec: the error taxonomy of cue evaluation. -/
inductive EvalError where
  | invalidChannel
  | invalidConfiguration
deriving DecidableEq, Repr

/-- Modelled from the spec: pure evaluation of a Cue at an elapsed time for a
channel; a defined error signal for `channel_count = 0` (never divide by
zero) and for `channel ≥ channel_count`; each variant follows its timing
law (solid ignores time; pulse lerps with phase `(elapsed mod P) / P`; chase
samples the palette at `(elapsed / P + channel / channel_count) mod 1`;
strobe gates on `elapsed mod P < on_duration`). -/
def Cue.evaluate (cue : Cue) (elapsed channel channelCount : Nat) :
    Except EvalError Color :=
  if channelCount = 0 then .error .invalidConfiguration
  else if channelCount ≤ channel then .error .invalidChannel
  else match cue with
    | .solid c => .ok c
    | .pulse a b period => .ok (a.lerp b (elapsed % period) period)
    | .chase palette period =>
        let den := period * channelCount
        let num := ((elapsed % period) * channelCount + channel * period) % den
        .ok (palette.getD (num * palette.length / den) Color.black)
    | .strobe c period onDuration =>
        .ok (if elapsed % period < onDuration then c else Color.black)

/-- Modelled from the spec: the decode error taxonomy — bad version,
truncated buffer, unknown variant tag, parameter out of range. -/
inductive DecodeError where
  | badVersion
  | truncated
  | unknownTag
  | paramOutOfRange
deriving DecidableEq, Repr

/-- Modelled from the spec: the wire-format version byte. -/
def formatVersion : Nat := 1

/-- Modelled from the spec: a 32-bit value laid out as four big-endian
bytes. -/
def u32Bytes (n : Nat) : List Nat :=
  [n / 16777216 % 256, n / 65536 % 256, n / 256 % 256, n % 256]

/-- Modelled from the spec: a Color laid out as its three component bytes. -/
def encodeColor (c : Color) : List Nat := [c.r, c.g, c.b]

/-- Modelled from the spec: a palette laid out as consecutive Colors. -/
def encodeColors : List Color → List Nat
  | [] => []
  | c :: cs => encodeColor c ++ encodeColors cs

/-- Modelled from the spec: the Codec's encoder — version byte, variant tag,
then fixed-layout fields per variant (chase carries one palette-length count
byte). -/
def encode : Cue → List Nat
  | .solid c => formatVersion :: 0 :: encodeColor c
  | .pulse a b period =>
      formatVersion :: 1 :: (encodeColor a ++ encodeColor b ++ u32Bytes period)
  | .chase palette period =>
      formatVersion :: 2 ::
        (palette.length :: (encodeColors palette ++ u32Bytes period))
  | .strobe c period onDuration =>
      formatVersion :: 3 ::
        (encodeColor c ++ (u32Bytes period ++ u32Bytes onDuration))

/-- Modelled from the spec: read one byte from the buffer; truncation and
out-of-range bytes are defined errors. -/
def readByte : List Nat → Except DecodeError (Nat × List Nat)
  | [] => .error .truncated
  | x :: rest => if x < 256 then .ok (x, rest) else .error .paramOutOfRange

/-- Modelled from the spec: read one Color (three bytes). -/
def readColor (l : List Nat) : Except DecodeError (Color × List Nat) := do
  let (r, l) ← readByte l
  let (g, l) ← readByte l
  let (b, l) ← readByte l
  pure (⟨r, g, b⟩, l)

/-- Modelled from the spec: read a big-endian 32-bit value (four bytes). -/
def readU32 (l : List Nat) : Except DecodeError (Nat × List Nat) := do
  let (b0, l) ← readByte l
  let (b1, l) ← readByte l
  let (b2, l) ← readByte l
  let (b3, l) ← readByte l
  pure (((b0 * 256 + b1) * 256 + b2) * 256 + b3, l)

/-- Modelled from the spec: read `n` consecutive Colors. -/
def readColors : Nat → List Nat → Except DecodeError (List Color × List Nat)
  | 0, l => pure ([], l)
  | n + 1, l => do
    let (c, l) ← readColor l
    let (cs, l) ← readColors n l
    pure (c :: cs, l)

/-- Modelled from the spec: decode the tagged body after the version byte;
unknown tags, truncation and out-of-range parameters (zero period, zero
palette count) are distinguishable errors. -/
def decodeBody : List Nat → Except DecodeError Cue
  | [] => .error .truncated
  | tag :: body =>
    if tag = 0 then do
      let (c, _) ← readColor body
      pure (.solid c)
    else if tag = 1 then do
      let (a, l) ← readColor body
      let (b, l) ← readColor l
      let (period, _) ← readU32 l
      if period = 0 then throw .paramOutOfRange
      else pure (.pulse a b period)
    else if tag = 2 then do
      let (count, l) ← readByte body
      if count = 0 then throw .paramOutOfRange
      else do
        let (palette, l) ← readColors count l
        let (period, _) ← readU32 l
        if period = 0 then throw .paramOutOfRange
        else pure (.chase palette period)
    else if tag = 3 then do
      let (c, l) ← readColor body
      let (period, l) ← readU32 l
      let (onDuration, _) ← readU32 l
      if period = 0 then throw .paramOutOfRange
      else pure (.strobe c period onDuration)
    else .error .unknownTag

/-- Modelled from the spec: the Codec's decoder — checks the version byte,
then decodes the tagged fixed-layout body; all failures are typed
`DecodeError`s, never a crash. -/
def decode : List Nat → Except DecodeError Cue
  | [] => .error .truncated
  | v :: rest => if v = formatVersion then decodeBody rest else .error .badVersion

/-- Modelled from the spec: the Playback State Machine — `Idle` (no cue
launched) or `Playing(index, launch_time)`. -/
inductive Playback where
  | idle
  | playing (index : Nat) (launchTime : Nat)
deriving DecidableEq, Repr

/-- Modelled from the spec: the registry/playback error taxonomy. -/
inductive EngineError where
  | indexOutOfRange
deriving DecidableEq, Repr

/-- Modelled from the spec: the engine's state — the ordered Cue Registry
plus the single-slot Playback State Machine. -/
structure Engine where
  registry : List Cue
  playback : Playback
deriving DecidableEq, Repr

/-- Modelled from the spec: the fixed channel cardinality of the observed
fixture (the host polls channels 0 through 11). -/
def channelCount : Nat := 12

/-- Modelled from the spec: the initial engine state — empty registry,
Idle playback. -/
def Engine.empty : Engine := ⟨[], .idle⟩

/-- Modelled from the spec: `add_cue` appends the Cue to the Registry and
returns the index, which equals the previous length. -/
def add_cue (s : Engine) (c : Cue) : Engine × Nat :=
  (⟨s.registry ++ [c], s.playback⟩, s.registry.length)

/-- Modelled from the spec: `launch_cue` validates the index against the
Registry (fails `IndexOutOfRange` otherwise) and moves to
`Playing(index, now)` unconditionally, preempting any playing cue. -/
def launch_cue (s : Engine) (index now : Nat) : Except EngineError Engine :=
  if index < s.registry.length then .ok ⟨s.registry, .playing index now⟩
  else .error .indexOutOfRange

/-- Modelled from the spec: wraparound-safe elapsed time since launch,
with all time arithmetic defined modulo 2^32; in natural-number form the
subtraction is shifted by one period so it can never underflow. -/
def elapsedTime (now launch : Nat) : Nat :=
  (now % 4294967296 + 4294967296 - launch % 4294967296) % 4294967296

/-- Modelled from the spec: evaluate the active Cue, falling back to the
defined default Color on any evaluation error so the display loop never
needs per-tick error handling. -/
def evalOrBlack (cue : Cue) (elapsed channel : Nat) : Color :=
  match cue.evaluate elapsed channel channelCount with
  | .ok c => c
  | .error _ => Color.black

/-- Modelled from the spec: the Evaluator `current_color` — looks up the
Playback State, computes wraparound-safe elapsed time, delegates to the
active Cue's `evaluate`, and returns the Idle default (black) when idle. -/
def current_color (s : Engine) (now_ms channel : Nat) : Color :=
  match s.playback with
  | .idle => Color.black
  | .playing index launch =>
    match s.registry[index]? with
    | none => Color.black
    | some cue => evalOrBlack cue (elapsedTime now_ms launch) channel

/-- Modelled from the spec: an engine state is valid when every registered
Cue is valid. -/
def EngineValid (s : Engine) : Prop :=
  ∀ c ∈ s.registry, CueValid c

/-- Modelled from the spec: decoding a received buffer into the Registry;
on any `DecodeError` the Registry (whole engine state) is left unchanged. -/
def decodeAndAdd (s : Engine) (buf : List Nat) :
    Engine × Except DecodeError Nat :=
  match decode buf with
  | .ok c => ((add_cue s c).1, .ok (add_cue s c).2)
  | .error e => (s, .error e)

/-- The host's reduction of the wall clock before calling `current_color`,
embedded from `update_display` in the TypeScript sources:
`Date.now() % 4294967295`. -/
def hostNowMs (wallClockMs : Nat) : Nat :=
  wallClockMs % 4294967295

/-! ## Codec lemmas -/

@[simp] theorem exceptBind_ok {ε α β : Type} (x : α) (f : α → Except ε β) :
    (Except.ok x : Except ε α) >>= f = f x := rfl

@[simp] theorem exceptBind_error {ε α β : Type} (e : ε) (f : α → Except ε β) :
    (Except.error e : Except ε α) >>= f = .error e := rfl

@[simp] theorem exceptPure_eq {ε α : Type} (x : α) :
    (pure x : Except ε α) = .ok x := rfl

theorem readByte_cons (x : Nat) (rest : List Nat) (h : x < 256) :
    readByte (x :: rest) = .ok (x, rest) := by
  simp [readByte, h]

theorem readColor_encodeColor (c : Color) (rest : List Nat) (h : c.valid) :
    readColor (encodeColor c ++ rest) = .ok (c, rest) := by
  obtain ⟨hr, hg, hb⟩ := h
  simp [readColor, encodeColor, readByte_cons _ _ hr, readByte_cons _ _ hg,
    readByte_cons _ _ hb]

theorem u32Bytes_lt (n : Nat) : ∀ x ∈ u32Bytes n, x < 256 := by
  intro x hx
  simp only [u32Bytes, List.mem_cons, List.not_mem_nil, or_false] at hx
  rcases hx with h | h | h | h <;> subst h <;> exact Nat.mod_lt _ (by norm_num)

theorem readU32_u32Bytes (n : Nat) (rest : List Nat) (h : n < 4294967296) :
    readU32 (u32Bytes n ++ rest) = .ok (n, rest) := by
  simp only [u32Bytes, List.cons_append, List.nil_append, readU32,
    readByte_cons _ _ (Nat.mod_lt _ (by norm_num)), exceptBind_ok,
    exceptPure_eq, Except.ok.injEq, Prod.mk.injEq, and_true]
  omega

theorem readColors_encodeColors (pal : List Color) (rest : List Nat)
    (h : ∀ c ∈ pal, c.valid) :
    readColors pal.length (encodeColors pal ++ rest) = .ok (pal, rest) := by
  induction pal with
  | nil => simp [readColors, encodeColors]
  | cons c cs ih =>
    have hc : c.valid := h c (by simp)
    have hcs : ∀ x ∈ cs, x.valid := fun x hx => h x (by simp [hx])
    simp only [encodeColors, List.length_cons, List.append_assoc, readColors]
    rw [readColor_encodeColor c _ hc]
    simp only [exceptBind_ok]
    rw [ih hcs]
    simp

theorem readColor_encodeColor_nil (c : Color) (h : c.valid) :
    readColor (encodeColor c) = .ok (c, []) := by
  have := readColor_encodeColor c [] h
  simpa using this

theorem readU32_u32Bytes_nil (n : Nat) (h : n < 4294967296) :
    readU32 (u32Bytes n) = .ok (n, []) := by
  have := readU32_u32Bytes n [] h
  simpa using this

/-! ## Color and evaluation lemmas -/

theorem black_valid : Color.black.valid := by decide

theorem lerpComp_lt (x y num den : Nat) (hx : x < 256) (hy : y < 256)
    (h : num ≤ den) : lerpComp x y num den < 256 := by
  rcases Nat.eq_zero_or_pos den with hden | hden
  · subst hden
    simp [lerpComp]
  · unfold lerpComp
    rw [Nat.div_lt_iff_lt_mul hden]
    have hd : den - num + num = den := Nat.sub_add_cancel h
    have h1 : x * (den - num) ≤ 255 * (den - num) :=
      Nat.mul_le_mul_right _ (by omega)
    have h2 : y * num ≤ 255 * num := Nat.mul_le_mul_right _ (by omega)
    have h3 : den / 2 < den := Nat.div_lt_self hden (by norm_num)
    have h4 : 255 * (den - num) + 255 * num = 255 * den := by
      rw [← Nat.mul_add, hd]
    linarith

theorem lerp_valid (a b : Color) (num den : Nat) (ha : a.valid) (hb : b.valid)
    (h : num ≤ den) : (a.lerp b num den).valid := by
  obtain ⟨har, hag, hab⟩ := ha
  obtain ⟨hbr, hbg, hbb⟩ := hb
  exact ⟨lerpComp_lt _ _ _ _ har hbr h, lerpComp_lt _ _ _ _ hag hbg h,
    lerpComp_lt _ _ _ _ hab hbb h⟩

theorem getD_black_valid (l : List Color) (i : Nat) (h : ∀ c ∈ l, c.valid) :
    (l.getD i Color.black).valid := by
  rcases Nat.lt_or_ge i l.length with hi | hi
  · rw [List.getD_eq_getElem l _ hi]
    exact h _ (List.getElem_mem hi)
  · rw [List.getD_eq_default l _ hi]
    exact black_valid

theorem evaluate_ok_valid (cue : Cue) (h : CueValid cue)
    (elapsed channel cc : Nat) (c : Color)
    (hev : cue.evaluate elapsed channel cc = .ok c) : c.valid := by
  by_cases h0 : cc = 0
  · simp [Cue.evaluate, h0] at hev
  · by_cases h1 : cc ≤ channel
    · simp [Cue.evaluate, h0, h1] at hev
    · cases cue with
      | solid col =>
        simp only [Cue.evaluate, if_neg h0, if_neg h1, Except.ok.injEq] at hev
        exact hev ▸ h
      | pulse a b period =>
        obtain ⟨ha, hb, hpos, _⟩ := h
        simp only [Cue.evaluate, if_neg h0, if_neg h1, Except.ok.injEq] at hev
        exact hev ▸ lerp_valid a b _ _ ha hb (le_of_lt (Nat.mod_lt _ hpos))
      | chase palette period =>
        obtain ⟨_, _, hval, _, _⟩ := h
        simp only [Cue.evaluate, if_neg h0, if_neg h1, Except.ok.injEq] at hev
        exact hev ▸ getD_black_valid palette _ hval
      | strobe col period onDuration =>
        obtain ⟨hcol, _, _, _⟩ := h
        simp only [Cue.evaluate, if_neg h0, if_neg h1, Except.ok.injEq] at hev
        subst hev
        split <;> [exact hcol; exact black_valid]

theorem evalOrBlack_valid (cue : Cue) (h : CueValid cue)
    (elapsed channel : Nat) : (evalOrBlack cue elapsed channel).valid := by
  unfold evalOrBlack
  cases hev : cue.evaluate elapsed channel channelCount with
  | ok c => exact evaluate_ok_valid cue h _ _ _ c hev
  | error e => exact black_valid

/-! ## Claim theorems -/

/-- C1: for every valid Cue value `c`, decoding the encoding of `c` yields
`c` again — the Codec round-trip law. -/
theorem decode_encode_roundtrip (c : Cue) (h : CueValid c) :
    decode (encode c) = .ok c := by
  cases c with
  | solid col =>
    have hcol : col.valid := h
    simp [encode, decode, decodeBody, readColor_encodeColor_nil col hcol]
  | pulse a b period =>
    obtain ⟨ha, hb, hpos, hlt⟩ := h
    have hne : ¬ period = 0 := Nat.pos_iff_ne_zero.mp hpos
    simp [encode, decode, decodeBody, readColor_encodeColor a _ ha,
      readColor_encodeColor_nil, readColor_encodeColor b _ hb,
      readU32_u32Bytes_nil period hlt, hne]
  | chase palette period =>
    obtain ⟨hne, hlen, hval, hpos, hlt⟩ := h
    have hlocne : ¬ palette.length = 0 := by
      simpa [List.length_eq_zero] using hne
    have hpne : ¬ period = 0 := Nat.pos_iff_ne_zero.mp hpos
    simp [encode, decode, decodeBody, readByte_cons _ _ hlen, hlocne,
      readColors_encodeColors palette _ hval, readU32_u32Bytes_nil period hlt,
      hpne]
  | strobe col period onDuration =>
    obtain ⟨hcol, hpos, hlt, hdlt⟩ := h
    have hpne : ¬ period = 0 := Nat.pos_iff_ne_zero.mp hpos
    simp [encode, decode, decodeBody, readColor_encodeColor col _ hcol,
      readU32_u32Bytes period _ hlt, readU32_u32Bytes_nil onDuration hdlt,
      hpne]

/-- C1 witness: the round-trip law applied at a concrete valid Cue. -/
theorem decode_encode_roundtrip_witness :
    decode (encode (.pulse ⟨0, 0, 0⟩ ⟨255, 255, 255⟩ 1000)) =
      .ok (.pulse ⟨0, 0, 0⟩ ⟨255, 255, 255⟩ 1000) :=
  decode_encode_roundtrip (.pulse ⟨0, 0, 0⟩ ⟨255, 255, 255⟩ 1000) (by decide)

/-- C2: for every valid engine state, every `now_ms` in `[0, 2^32)` and every
channel index below `channel_count`, `current_color` is defined (it is a
total function) and returns a valid Color. -/
theorem current_color_total_valid (s : Engine) (hs : EngineValid s)
    (now_ms ch : Nat) (hnow : now_ms < 4294967296) (hch : ch < channelCount) :
    (current_color s now_ms ch).valid := by
  obtain ⟨reg, pb⟩ := s
  cases pb with
  | idle => exact black_valid
  | playing index launch =>
    simp only [current_color]
    cases hreg : reg[index]? with
    | none => exact black_valid
    | some cue =>
      exact evalOrBlack_valid cue (hs cue (List.getElem?_mem hreg)) _ _

/-- C2 witness: a concrete valid engine state and query. -/
theorem current_color_total_valid_witness :
    (current_color ⟨[.solid ⟨255, 0, 0⟩], .playing 0 0⟩ 1000 3).valid :=
  current_color_total_valid ⟨[.solid ⟨255, 0, 0⟩], .playing 0 0⟩
    (by intro c hc; simp at hc; subst hc; decide) 1000 3 (by norm_num)
    (by norm_num [channelCount])

/-- C3: elapsed time is computed with wraparound-safe arithmetic modulo
2^32 — with the launch time near the counter maximum and a numerically
smaller `now_ms` (true wall-clock advance past the wrap, the caller having
reduced `now_ms` below 2^32), the elapsed value is exactly the advance past
the wrap, stays inside `[0, 2^32)`, and no underflow occurs (the
natural-number computation is shifted by one full period before the
subtraction). -/
theorem elapsedTime_wraparound_safe (now launch : Nat)
    (hlaunch : launch < 4294967296) (hwrap : now < launch) :
    elapsedTime now launch = now + 4294967296 - launch ∧
    elapsedTime now launch < 4294967296 := by
  have hnow : now < 4294967296 := lt_trans hwrap hlaunch
  unfold elapsedTime
  rw [Nat.mod_eq_of_lt hnow, Nat.mod_eq_of_lt hlaunch]
  exact ⟨Nat.mod_eq_of_lt (by omega), Nat.mod_lt _ (by norm_num)⟩

/-- C3 witness: launch at the maximum counter value, queried after the
wrap. -/
theorem elapsedTime_wraparound_safe_witness :
    elapsedTime 5 4294967295 = 6 ∧ elapsedTime 5 4294967295 < 4294967296 := by
  have h := elapsedTime_wraparound_safe 5 4294967295 (by norm_num) (by norm_num)
  exact ⟨by rw [h.1], h.2⟩

/-- C4: while the Playback State Machine is Idle — which is the state before
any `launch_cue`, since the initial state is Idle and `add_cue` never
changes playback — `current_color` returns the defined off/default Color
(black) for every time and channel, rather than failing. -/
theorem current_color_idle_default :
    (∀ (s : Engine), s.playback = .idle →
      ∀ (t ch : Nat), current_color s t ch = Color.black) ∧
    Engine.empty.playback = .idle ∧
    (∀ (s : Engine) (c : Cue), ((add_cue s c).1).playback = s.playback) := by
  refine ⟨?_, rfl, fun s c => rfl⟩
  intro s h t ch
  obtain ⟨reg, pb⟩ := s
  cases h
  rfl

/-- C4 witness: the initial engine state returns black at a concrete
query. -/
theorem current_color_idle_default_witness :
    current_color Engine.empty 123456 7 = Color.black :=
  current_color_idle_default.1 Engine.empty rfl 123456 7

/-- C5: `add_cue` appends and returns the previous length as the new index;
previously assigned indices keep addressing the same cues, and launching
leaves the registry untouched (never reorders). -/
theorem add_cue_append_index_stable :
    ∀ (s : Engine) (c : Cue),
      (add_cue s c).2 = s.registry.length ∧
      ((add_cue s c).1).registry = s.registry ++ [c] ∧
      (∀ i, i < s.registry.length →
        ((add_cue s c).1).registry[i]? = s.registry[i]?) ∧
      (∀ (index now : Nat) (s' : Engine),
        launch_cue s index now = .ok s' → s'.registry = s.registry) := by
  intro s c
  refine ⟨rfl, rfl, ?_, ?_⟩
  · intro i hi
    exact List.getElem?_append_left hi
  · intro index now s' h
    unfold launch_cue at h
    split at h
    · cases h
      rfl
    · cases h

/-- C5 witness: adding to a one-cue registry yields index 1, keeps slot 0,
and a launch leaves the registry unchanged. -/
theorem add_cue_append_index_stable_witness :
    (add_cue ⟨[.solid ⟨1, 2, 3⟩], .idle⟩ (.solid ⟨4, 5, 6⟩)).2 = 1 ∧
    ((add_cue ⟨[.solid ⟨1, 2, 3⟩], .idle⟩
        (.solid ⟨4, 5, 6⟩)).1).registry[0]? = some (.solid ⟨1, 2, 3⟩) := by
  have h := add_cue_append_index_stable ⟨[.solid ⟨1, 2, 3⟩], .idle⟩
    (.solid ⟨4, 5, 6⟩)
  refine ⟨h.1, ?_⟩
  rw [h.2.2.1 0 (by norm_num)]
  rfl

/-- C6: `launch_cue` fails with `IndexOutOfRange` exactly when the index is
not a valid registry index; otherwise it moves the machine to
`Playing(index, now)` unconditionally, whatever was playing before. -/
theorem launch_cue_validates_and_preempts :
    ∀ (s : Engine) (index now : Nat),
      (index < s.registry.length →
        launch_cue s index now = .ok ⟨s.registry, .playing index now⟩) ∧
      (s.registry.length ≤ index →
        launch_cue s index now = .error .indexOutOfRange) := by
  intro s index now
  constructor
  · intro h
    simp [launch_cue, h]
  · intro h
    simp [launch_cue, Nat.not_lt.mpr h]

/-- C6 witness: a valid launch preempts the playing cue, an invalid index
fails. -/
theorem launch_cue_validates_and_preempts_witness :
    launch_cue ⟨[.solid ⟨1, 2, 3⟩], .playing 0 77⟩ 0 99 =
      .ok ⟨[.solid ⟨1, 2, 3⟩], .playing 0 99⟩ ∧
    launch_cue ⟨[.solid ⟨1, 2, 3⟩], .idle⟩ 5 99 = .error .indexOutOfRange :=
  ⟨(launch_cue_validates_and_preempts ⟨[.solid ⟨1, 2, 3⟩], .playing 0 77⟩
      0 99).1 (by norm_num),
   (launch_cue_validates_and_preempts ⟨[.solid ⟨1, 2, 3⟩], .idle⟩
      5 99).2 (by norm_num)⟩

/-- C7: cue evaluation signals `InvalidChannel` for any channel at or above
the channel count, and `InvalidConfiguration` for a zero channel count —
the division-by-zero path is never reached. -/
theorem evaluate_error_signals :
    ∀ (cue : Cue) (elapsed channel count : Nat),
      (count = 0 →
        cue.evaluate elapsed channel count = .error .invalidConfiguration) ∧
      (0 < count → count ≤ channel →
        cue.evaluate elapsed channel count = .error .invalidChannel) := by
  intro cue elapsed channel count
  constructor
  · intro h
    cases cue <;> simp [Cue.evaluate, h]
  · intro h0 h1
    cases cue <;> simp [Cue.evaluate, Nat.pos_iff_ne_zero.mp h0, h1]

/-- C7 witness: concrete invalid-channel and zero-count queries. -/
theorem evaluate_error_signals_witness :
    (Cue.solid ⟨1, 2, 3⟩).evaluate 100 3 0 = .error .invalidConfiguration ∧
    (Cue.solid ⟨1, 2, 3⟩).evaluate 100 12 12 = .error .invalidChannel :=
  ⟨(evaluate_error_signals (.solid ⟨1, 2, 3⟩) 100 3 0).1 rfl,
   (evaluate_error_signals (.solid ⟨1, 2, 3⟩) 100 12 12).2 (by norm_num)
     (by norm_num)⟩

/-- C8: malformed buffers — unknown version byte, truncated buffer, unknown
variant tag, out-of-range parameter — decode to distinguishable
`DecodeError`s (never a crash: `decode` is a total function), and a failed
decode leaves the Registry unchanged. -/
theorem decode_error_registry_unchanged :
    (∀ (s : Engine) (buf : List Nat) (e : DecodeError),
      decode buf = .error e → decodeAndAdd s buf = (s, .error e)) ∧
    (∀ (v : Nat) (rest : List Nat), v ≠ formatVersion →
      decode (v :: rest) = .error .badVersion) ∧
    decode [] = .error .truncated ∧
    (∀ (tag : Nat) (body : List Nat), 4 ≤ tag →
      decode (formatVersion :: tag :: body) = .error .unknownTag) ∧
    decode (formatVersion :: 1 :: (encodeColor ⟨0, 0, 0⟩ ++
      encodeColor ⟨0, 0, 0⟩ ++ u32Bytes 0)) = .error .paramOutOfRange ∧
    decode [formatVersion, 0, 7] = .error .truncated := by
  refine ⟨?_, ?_, rfl, ?_, by rfl, by rfl⟩
  · intro s buf e h
    unfold decodeAndAdd
    rw [h]
  · intro v rest h
    simp [decode, h]
  · intro tag body h
    have h0 : ¬ tag = 0 := by omega
    have h1 : ¬ tag = 1 := by omega
    have h2 : ¬ tag = 2 := by omega
    have h3 : ¬ tag = 3 := by omega
    simp [decode, decodeBody, h0, h1, h2, h3]

/-- C8 witness: an unknown version byte decodes to `badVersion` and leaves a
concrete registry unchanged. -/
theorem decode_error_registry_unchanged_witness :
    decodeAndAdd ⟨[.solid ⟨1, 2, 3⟩], .idle⟩ [9, 0, 1, 2, 3] =
      (⟨[.solid ⟨1, 2, 3⟩], .idle⟩, .error .badVersion) :=
  decode_error_registry_unchanged.1 ⟨[.solid ⟨1, 2, 3⟩], .idle⟩ [9, 0, 1, 2, 3]
    .badVersion (decode_error_registry_unchanged.2.1 9 [0, 1, 2, 3]
      (by norm_num [formatVersion]))

/-- C9: `current_color` is deterministic and has no hidden inputs or
observable side effects — it is a pure function of the registry, the
playback state and the `(now_ms, ch)` arguments, so two calls with
identical arguments and identical (unmutated) engine state return identical
Colors. -/
theorem current_color_deterministic :
    ∀ (s s' : Engine) (now_ms ch : Nat),
      s.registry = s'.registry → s.playback = s'.playback →
      current_color s now_ms ch = current_color s' now_ms ch := by
  intro s s' now_ms ch hr hp
  obtain ⟨reg, pb⟩ := s
  obtain ⟨reg', pb'⟩ := s'
  cases hr
  cases hp
  rfl

/-- C9 witness: two consecutive identical queries on a concrete state. -/
theorem current_color_deterministic_witness :
    current_color ⟨[.solid ⟨9, 9, 9⟩], .playing 0 0⟩ 500 2 =
      current_color ⟨[.solid ⟨9, 9, 9⟩], .playing 0 0⟩ 500 2 :=
  current_color_deterministic ⟨[.solid ⟨9, 9, 9⟩], .playing 0 0⟩
    ⟨[.solid ⟨9, 9, 9⟩], .playing 0 0⟩ 500 2 rfl rfl

/-- C10: the host reduces the wall clock as `t % 4294967295` — modulo
`2^32 - 1`, not `2^32` — so the value passed to `current_color` always lies
in `[0, 4294967294]` and the wraparound test input `2^32 - 1` is never
passed; the two reductions genuinely differ at some wall-clock reading. -/
theorem hostNowMs_mod_range :
    (∀ t : Nat, hostNowMs t = t % 4294967295 ∧ hostNowMs t ≤ 4294967294 ∧
      hostNowMs t ≠ 4294967296 - 1) ∧
    (∃ u : Nat, hostNowMs u ≠ u % 4294967296) := by
  constructor
  · intro t
    have h : hostNowMs t < 4294967295 := Nat.mod_lt _ (by norm_num)
    exact ⟨rfl, by omega, by omega⟩
  · exact ⟨4294967295, by norm_num [hostNowMs]⟩

end Iris
